import Mathlib

/- Shallow embedding of the caelum-noctis star-disc pipeline
   (src/disks/Star.py, src/disks/SkyMap.py, src/disks/StarDiscGenerator.py).
   Catalog float fields are modelled as rationals; the projections produce
   real-valued coordinates. -/

namespace CaelumNoctis

/-- Star record (Star.py, `@dataclass class Star`): id, name, magnitude,
ra, dec, mutable plane coordinates x/y defaulting to 0, optional
constellation abbreviation, optional common name, optional HIP id. -/
structure Star where
  id : ℕ
  name : String
  magnitude : ℚ
  ra : ℚ
  dec : ℚ
  x : ℝ := 0
  y : ℝ := 0
  constellation : Option String := none
  common_name : Option String := none
  hip : Option ℕ := none

/-- ConstellationLines.MAJOR_CONSTELLATIONS (Star.py): constellation name →
ordered list of (hip, hip) pairs, each denoting one asterism segment. -/
def MAJOR_CONSTELLATIONS : List (String × List (ℕ × ℕ)) :=
  [("Orion", [(26727, 26311), (26311, 25930), (25930, 26727), (26727, 27366),
              (27366, 27989), (27989, 29426), (29426, 25930)]),
   ("Taurus", [(25428, 26451), (26451, 27913), (27913, 28380), (28380, 29434),
               (29434, 32349), (32349, 31681)]),
   ("Gemini", [(31637, 30343), (30343, 29655), (29655, 28910), (28910, 28734),
               (28734, 27673)]),
   ("Auriga", [(24608, 28380), (28380, 28360), (28360, 25428), (25428, 24608)]),
   ("Canis Major", [(32349, 33165), (33165, 34444), (34444, 33579), (33579, 32349)]),
   ("Ursa Major", [(54061, 53910), (53910, 58001), (58001, 59774), (59774, 65378),
                   (65378, 67301), (67301, 68127)]),
   ("Perseus", [(15863, 14576), (15863, 13654), (13654, 13268), (13268, 14576)]),
   ("Cancer", [(44066, 42911), (42911, 42806), (42806, 41909)])]

/-- reportlab.lib.units.inch: 72 points. -/
def inch : ℚ := 72

/-- Disc geometry fields of StarDiscGenerator. -/
structure DiscGen where
  diameter : ℚ
  radius : ℚ
  center_hole : ℚ
  margin : ℚ
  page_width : ℚ
  page_height : ℚ
  center_x : ℚ
  center_y : ℚ

/-- StarDiscGenerator.__init__ (StarDiscGenerator.py lines 12-27). -/
def mkDiscGen (diameter_inches center_hole_mm margin_inches : ℚ) : DiscGen :=
  let diameter := diameter_inches * inch
  let margin := margin_inches * inch
  let page_width := diameter + 2 * margin
  let page_height := diameter + 2 * margin
  { diameter := diameter
    radius := diameter / 2
    center_hole := center_hole_mm / 25.4 * inch
    margin := margin
    page_width := page_width
    page_height := page_height
    center_x := page_width / 2
    center_y := page_height / 2 }

/-- The generator instantiated by `generate_star_disc`: all defaults
(diameter 8 in, center hole 5 mm, margin 1 in). -/
def defaultGen : DiscGen := mkDiscGen 8 5 1

/-- create_disc_template line 47: `theta = (star.ra / 24.0) * 2 * math.pi`. -/
noncomputable def discTheta (s : Star) : ℝ := (s.ra : ℝ) / 24 * 2 * Real.pi

/-- create_disc_template line 49: `r = self.radius * (90 - star.dec) / 90`. -/
def discR (g : DiscGen) (s : Star) : ℚ := g.radius * (90 - s.dec) / 90

/-- create_disc_template line 50: `x = self.center_x + (r * math.cos(theta))`. -/
noncomputable def discX (g : DiscGen) (s : Star) : ℝ :=
  (g.center_x : ℝ) + (discR g s : ℝ) * Real.cos (discTheta s)

/-- create_disc_template line 51: `y = self.center_y + (r * math.sin(theta))`. -/
noncomputable def discY (g : DiscGen) (s : Star) : ℝ :=
  (g.center_y : ℝ) + (discR g s : ℝ) * Real.sin (discTheta s)

/-- The _draw_star bounds check (line 137): a filled marker is drawn iff
`0 <= x <= self.diameter and 0 <= y <= self.diameter`. -/
def inBounds (g : DiscGen) (x y : ℝ) : Prop :=
  0 ≤ x ∧ x ≤ (g.diameter : ℝ) ∧ 0 ≤ y ∧ y ≤ (g.diameter : ℝ)

/-- C1: for every star the disc-plane position is
x = cx + r·cos θ, y = cy + r·sin θ with θ = (ra/24)·2π and
r = R·(90 − dec)/90; in particular a star with declination exactly 90°
has r = 0 and lands at the exact disc center for every right ascension. -/
theorem disc_projection_formula_and_north_pole (g : DiscGen) (s : Star) :
    (discTheta s = (s.ra : ℝ) / 24 * (2 * Real.pi) ∧
     discR g s = g.radius * (90 - s.dec) / 90 ∧
     discX g s = (g.center_x : ℝ) + (discR g s : ℝ) * Real.cos (discTheta s) ∧
     discY g s = (g.center_y : ℝ) + (discR g s : ℝ) * Real.sin (discTheta s)) ∧
    (s.dec = 90 → discR g s = 0 ∧
      discX g s = (g.center_x : ℝ) ∧ discY g s = (g.center_y : ℝ)) := by
  constructor
  · refine ⟨by unfold discTheta; ring, rfl, rfl, rfl⟩
  · intro h
    have hr : discR g s = 0 := by unfold discR; rw [h]; ring
    refine ⟨hr, ?_, ?_⟩
    · unfold discX; rw [hr]; push_cast; ring
    · unfold discY; rw [hr]; push_cast; ring

def c1star : Star := { id := 11767, name := "Polaris", magnitude := 1.97, ra := 2.5, dec := 90 }

/-- Witness for C1: a concrete declination-90 star lands at the disc center. -/
theorem disc_projection_north_pole_witness :
    discR defaultGen c1star = 0 ∧
    discX defaultGen c1star = (defaultGen.center_x : ℝ) ∧
    discY defaultGen c1star = (defaultGen.center_y : ℝ) :=
  (disc_projection_formula_and_north_pole defaultGen c1star).2 rfl

/-- C2: a star with declination exactly −90° has r = 2R and, whatever its
right ascension, its disc point fails the renderer bounding-square check,
so no filled marker is drawn for it. -/
theorem south_pole_never_drawn (s : Star) (h : s.dec = -90) :
    discR defaultGen s = 2 * defaultGen.radius ∧
    ¬ inBounds defaultGen (discX defaultGen s) (discY defaultGen s) := by
  have hr : discR defaultGen s = 576 := by
    unfold discR defaultGen mkDiscGen inch; rw [h]; norm_num
  constructor
  · rw [hr]; norm_num [defaultGen, mkDiscGen, inch]
  · rintro ⟨h1, h2, h3, h4⟩
    set c := Real.cos (discTheta s) with hc
    set sn := Real.sin (discTheta s) with hsn
    have hx : discX defaultGen s = 360 + 576 * c := by
      unfold discX; rw [hr]; norm_num [defaultGen, mkDiscGen, inch]
    have hy : discY defaultGen s = 360 + 576 * sn := by
      unfold discY; rw [hr]; norm_num [defaultGen, mkDiscGen, inch]
    have hd : (defaultGen.diameter : ℝ) = 576 := by
      norm_num [defaultGen, mkDiscGen, inch]
    rw [hx] at h1 h2
    rw [hy] at h3 h4
    rw [hd] at h2 h4
    have hpyth := Real.sin_sq_add_cos_sq (discTheta s)
    rw [← hc, ← hsn] at hpyth
    nlinarith [mul_nonneg (by linarith : (0:ℝ) ≤ 5/8 - c) (by linarith : (0:ℝ) ≤ c + 5/8),
               mul_nonneg (by linarith : (0:ℝ) ≤ 5/8 - sn) (by linarith : (0:ℝ) ≤ sn + 5/8)]

def c2star : Star := { id := 2, name := "SouthPole", magnitude := 3, ra := 17, dec := -90 }

/-- Witness for C2: a concrete declination −90° star is never drawn. -/
theorem south_pole_never_drawn_witness :
    discR defaultGen c2star = 2 * defaultGen.radius ∧
    ¬ inBounds defaultGen (discX defaultGen c2star) (discY defaultGen c2star) :=
  south_pole_never_drawn c2star rfl

/-- The function _magnitude_to_size (StarDiscGenerator.py lines 149-154):
`size = base_size * (1 / (magnitude + 2)) * inch / 25.4`, capped at
`0.1 * inch`. In ℚ the division at magnitude = −2 totalizes to 0, where
Python instead raises ZeroDivisionError. -/
def magnitudeToSize (magnitude : ℚ) : ℚ :=
  let base_size : ℚ := 2
  let size := base_size * (1 / (magnitude + 2)) * inch / 25.4
  min size (0.1 * inch)

/-- C5 counterexample: −1.9 < −1.5 but both magnitudes are mapped to the
capped size 0.1·inch, so the marker-size function is not strictly
decreasing over all magnitude pairs. -/
theorem magnitude_size_not_strictly_decreasing :
    (-1.9 : ℚ) < -1.5 ∧ magnitudeToSize (-1.9) = 0.1 * inch ∧
    magnitudeToSize (-1.5) = 0.1 * inch ∧
    ¬ (magnitudeToSize (-1.5) < magnitudeToSize (-1.9)) := by
  refine ⟨by norm_num, ?_, ?_, ?_⟩ <;>
    simp only [magnitudeToSize, inch] <;> norm_num

/-- C5 amended: the size function is strictly decreasing on magnitudes
at least −154/127 (exactly the range where the uncapped formula does not
exceed the cap), and every computed size (magnitude ≠ −2, where the code
raises) is at most the configured maximum 0.1·inch. -/
theorem magnitude_size_monotone_below_cap :
    (∀ m1 m2 : ℚ, -154/127 ≤ m1 → m1 < m2 →
      magnitudeToSize m2 < magnitudeToSize m1) ∧
    (∀ m : ℚ, m ≠ -2 → magnitudeToSize m ≤ 0.1 * inch) := by
  constructor
  · intro m1 m2 ha hb
    have hp1 : (0:ℚ) < m1 + 2 := by linarith
    have hp2 : (0:ℚ) < m2 + 2 := by linarith
    have hinv : 1 / (m2 + 2) < 1 / (m1 + 2) :=
      one_div_lt_one_div_of_lt hp1 (by linarith)
    have hinvle : 1 / (m1 + 2) ≤ 127 / 100 := by
      rw [div_le_div_iff₀ hp1 (by norm_num)]; linarith
    simp only [one_div] at hinv hinvle
    have hcap1 : (2:ℚ) * (1 / (m1 + 2)) * inch / 25.4 ≤ 0.1 * inch := by
      simp only [inch, one_div]; norm_num; linarith
    have hraw : (2:ℚ) * (1 / (m2 + 2)) * inch / 25.4 <
        2 * (1 / (m1 + 2)) * inch / 25.4 := by
      simp only [inch, one_div]; norm_num; linarith
    have e1 : magnitudeToSize m1 = 2 * (1 / (m1 + 2)) * inch / 25.4 := by
      simp only [magnitudeToSize]; exact min_eq_left hcap1
    have e2 : magnitudeToSize m2 = 2 * (1 / (m2 + 2)) * inch / 25.4 := by
      simp only [magnitudeToSize]; exact min_eq_left (le_trans hraw.le hcap1)
    rw [e1, e2]; exact hraw
  · intro m _
    simp only [magnitudeToSize]
    exact min_le_right _ _

/-- Witness for C5 amended: concrete instances of strict decrease and of
the cap bound. -/
theorem magnitude_size_monotone_witness :
    magnitudeToSize 1 < magnitudeToSize 0 ∧ magnitudeToSize 5 ≤ 0.1 * inch :=
  ⟨magnitude_size_monotone_below_cap.1 0 1 (by norm_num) (by norm_num),
   magnitude_size_monotone_below_cap.2 5 (by norm_num)⟩

/-- The per-edge body of _draw_constellation_lines (lines 117-124): a
segment is produced exactly when both hips are keys of the position
table. -/
def edgeSegment (pos : Option ℕ → Option (ℝ × ℝ)) (e : ℕ × ℕ) :
    Option ((ℝ × ℝ) × (ℝ × ℝ)) :=
  match pos (some e.1), pos (some e.2) with
  | some p1, some p2 => some (p1, p2)
  | _, _ => none

/-- The function _draw_constellation_lines (StarDiscGenerator.py lines 108-124): the
list of line segments emitted, iterating the edge table. -/
def draw_constellation_lines (pos : Option ℕ → Option (ℝ × ℝ)) :
    List ((ℝ × ℝ) × (ℝ × ℝ)) :=
  MAJOR_CONSTELLATIONS.flatMap (fun c => c.2.filterMap (edgeSegment pos))

lemma edgeSegment_eq_some {pos : Option ℕ → Option (ℝ × ℝ)} {e : ℕ × ℕ}
    {p1 p2 : ℝ × ℝ} :
    edgeSegment pos e = some (p1, p2) ↔
    pos (some e.1) = some p1 ∧ pos (some e.2) = some p2 := by
  unfold edgeSegment
  cases h1 : pos (some e.1) <;> cases h2 : pos (some e.2) <;>
    simp [Prod.ext_iff]

/-- C4: a line between two recorded pixel positions is drawn iff both
endpoint hips of some edge of the table are present as keys in the
position table; an edge with a missing endpoint contributes nothing. -/
theorem edge_drawn_iff_endpoints_recorded (pos : Option ℕ → Option (ℝ × ℝ))
    (p1 p2 : ℝ × ℝ) :
    (p1, p2) ∈ draw_constellation_lines pos ↔
    ∃ c ∈ MAJOR_CONSTELLATIONS, ∃ e ∈ c.2,
      pos (some e.1) = some p1 ∧ pos (some e.2) = some p2 := by
  simp only [draw_constellation_lines, List.mem_flatMap, List.mem_filterMap,
             edgeSegment_eq_some]

/-- The per-constellation flattening in SkyMap.calculate_positions
(lines 36-37): all hip ids of the pairs of one edge list. -/
def flatHips (edges : List (ℕ × ℕ)) : List ℕ :=
  edges.flatMap (fun p => [p.1, p.2])

/-- SkyMap.calculate_positions lines 30-42: for each constellation keep
the catalog stars whose hip occurs in its flattened edge list, and record
their hip ids. -/
def constellationStarIds (stars : List Star) : List ℕ :=
  MAJOR_CONSTELLATIONS.flatMap (fun c =>
    (stars.filter (fun s =>
      match s.hip with
      | some h => (flatHips c.2).contains h
      | none => false)).filterMap Star.hip)

/-- The membership test `star.hip in constellation_star_ids` (line 60):
a missing hip never matches. -/
def hipRequired (s : Star) (ids : List ℕ) : Bool :=
  match s.hip with
  | some h => ids.contains h
  | none => false

/-- Every hip id referenced by some pair of the edge table. -/
def allEdgeHips : List ℕ :=
  MAJOR_CONSTELLATIONS.flatMap (fun c => flatHips c.2)

/-- The projection applied to an included star (lines 62-66):
x = az·cos(alt), y = alt, written onto the star record. The ephemeris
oracle returns (azimuth, altitude) in radians for given (ra, dec),
matching `fixed_body._ra = star.ra; fixed_body._dec = star.dec`. -/
noncomputable def projectStar (eph : ℚ → ℚ → ℚ × ℚ) (s : Star) : Star :=
  { s with
    x := ((eph s.ra s.dec).1 : ℝ) * Real.cos ((eph s.ra s.dec).2 : ℝ)
    y := ((eph s.ra s.dec).2 : ℝ) }

/-- The inclusion test of line 60: `alt > 0 or star.hip in ids`. -/
def includeStar (eph : ℚ → ℚ → ℚ × ℚ) (ids : List ℕ) (s : Star) : Bool :=
  decide ((eph s.ra s.dec).2 > 0) || hipRequired s ids

/-- SkyMap.calculate_positions (lines 24-71), with the external ephemeris
modelled as a total oracle from (ra, dec) to (azimuth, altitude). -/
noncomputable def calculate_positions (eph : ℚ → ℚ → ℚ × ℚ)
    (stars : List Star) : List Star :=
  let ids := constellationStarIds stars
  stars.filterMap (fun s =>
    if includeStar eph ids s then some (projectStar eph s) else none)

lemma hipRequired_iff {stars : List Star} {s : Star} (hs : s ∈ stars) :
    hipRequired s (constellationStarIds stars) = true ↔
    ∃ h, s.hip = some h ∧ h ∈ allEdgeHips := by
  cases hh : s.hip with
  | none => simp [hipRequired, hh]
  | some h =>
    have hmain : h ∈ constellationStarIds stars ↔ h ∈ allEdgeHips := by
      constructor
      · intro hmem
        simp only [constellationStarIds, List.mem_flatMap, List.mem_filterMap,
          List.mem_filter] at hmem
        obtain ⟨c, hc, t, ⟨hts, htf⟩, hth⟩ := hmem
        rw [hth] at htf
        simp only [List.contains, List.elem_eq_mem, decide_eq_true_eq] at htf
        simp only [allEdgeHips, List.mem_flatMap]
        exact ⟨c, hc, htf⟩
      · intro hmem
        simp only [allEdgeHips, List.mem_flatMap] at hmem
        obtain ⟨c, hc, hmemc⟩ := hmem
        simp only [constellationStarIds, List.mem_flatMap, List.mem_filterMap,
          List.mem_filter]
        refine ⟨c, hc, s, ⟨hs, ?_⟩, hh⟩
        rw [hh]
        simpa [List.contains, List.elem_eq_mem] using hmemc
    simp [hipRequired, hh, List.contains, List.elem_eq_mem, hmain]

lemma projectStar_fields (eph : ℚ → ℚ → ℚ × ℚ) (s : Star) :
    (projectStar eph s).id = s.id ∧ (projectStar eph s).name = s.name ∧
    (projectStar eph s).magnitude = s.magnitude ∧
    (projectStar eph s).ra = s.ra ∧ (projectStar eph s).dec = s.dec ∧
    (projectStar eph s).constellation = s.constellation ∧
    (projectStar eph s).common_name = s.common_name ∧
    (projectStar eph s).hip = s.hip :=
  ⟨rfl, rfl, rfl, rfl, rfl, rfl, rfl, rfl⟩

/-- C3: a catalog star is included in the Visibility Projector output
exactly when its computed altitude is strictly positive or its hip id
appears in some pair of the constellation edge table. -/
theorem visibility_inclusion_rule (eph : ℚ → ℚ → ℚ × ℚ) (stars : List Star)
    (s : Star) (hs : s ∈ stars) :
    projectStar eph s ∈ calculate_positions eph stars ↔
    ((eph s.ra s.dec).2 > 0 ∨ ∃ h, s.hip = some h ∧ h ∈ allEdgeHips) := by
  simp only [calculate_positions, List.mem_filterMap]
  constructor
  · rintro ⟨a, ha, hif⟩
    by_cases hinc : includeStar eph (constellationStarIds stars) a
    · rw [if_pos hinc] at hif
      have hps : projectStar eph a = projectStar eph s := Option.some.inj hif
      have hra : a.ra = s.ra := by simpa [projectStar] using congrArg Star.ra hps
      have hdec : a.dec = s.dec := by simpa [projectStar] using congrArg Star.dec hps
      have hhip : a.hip = s.hip := by simpa [projectStar] using congrArg Star.hip hps
      simp only [includeStar, Bool.or_eq_true, decide_eq_true_eq] at hinc
      rcases hinc with halt | hreq
      · left; rwa [hra, hdec] at halt
      · right
        have : hipRequired s (constellationStarIds stars) = true := by
          unfold hipRequired at hreq ⊢; rwa [hhip] at hreq
        exact ((hipRequired_iff hs).mp this)
    · rw [if_neg hinc] at hif; exact absurd hif (by simp)
  · intro hcond
    refine ⟨s, hs, ?_⟩
    rw [if_pos ?_]
    simp only [includeStar, Bool.or_eq_true, decide_eq_true_eq]
    rcases hcond with halt | hreq
    · exact Or.inl halt
    · exact Or.inr ((hipRequired_iff hs).mpr hreq)

def c3eph : ℚ → ℚ → ℚ × ℚ := fun _ _ => (2, 1)

def c3star : Star := { id := 3, name := "Vega", magnitude := 0, ra := 18.6, dec := 38.8 }

/-- Witness for C3: a star at positive altitude is included. -/
theorem visibility_inclusion_witness :
    projectStar c3eph c3star ∈ calculate_positions c3eph [c3star] :=
  (visibility_inclusion_rule c3eph [c3star] c3star (List.mem_singleton.mpr rfl)).mpr
    (Or.inl (by norm_num [c3eph]))

/-- C9: every star produced by the Visibility Projector agrees with a
catalog star on all canonical fields (id, name, magnitude, ra, dec,
constellation, common_name, hip); only x and y are written. -/
theorem projection_preserves_canonical_fields (eph : ℚ → ℚ → ℚ × ℚ)
    (stars : List Star) (t : Star) (ht : t ∈ calculate_positions eph stars) :
    ∃ s, s ∈ stars ∧ t.id = s.id ∧ t.name = s.name ∧
      t.magnitude = s.magnitude ∧ t.ra = s.ra ∧ t.dec = s.dec ∧
      t.constellation = s.constellation ∧ t.common_name = s.common_name ∧
      t.hip = s.hip := by
  simp only [calculate_positions, List.mem_filterMap] at ht
  obtain ⟨a, ha, hif⟩ := ht
  by_cases hinc : includeStar eph (constellationStarIds stars) a
  · rw [if_pos hinc] at hif
    cases Option.some.inj hif
    exact ⟨a, ha, (projectStar_fields eph a).1, (projectStar_fields eph a).2.1,
      (projectStar_fields eph a).2.2.1, (projectStar_fields eph a).2.2.2.1,
      (projectStar_fields eph a).2.2.2.2.1, (projectStar_fields eph a).2.2.2.2.2.1,
      (projectStar_fields eph a).2.2.2.2.2.2.1, (projectStar_fields eph a).2.2.2.2.2.2.2⟩
  · rw [if_neg hinc] at hif; exact absurd hif (by simp)

def c9eph : ℚ → ℚ → ℚ × ℚ := fun _ _ => (3, 2)

def c9star : Star := { id := 9, name := "Deneb", magnitude := 1.25, ra := 20.7, dec := 45.3 }

/-- Witness for C9: the projected copy of a concrete star matches it on
every canonical field. -/
theorem projection_preserves_fields_witness :
    ∃ s, s ∈ [c9star] ∧ (projectStar c9eph c9star).id = s.id ∧
      (projectStar c9eph c9star).name = s.name ∧
      (projectStar c9eph c9star).magnitude = s.magnitude ∧
      (projectStar c9eph c9star).ra = s.ra ∧
      (projectStar c9eph c9star).dec = s.dec ∧
      (projectStar c9eph c9star).constellation = s.constellation ∧
      (projectStar c9eph c9star).common_name = s.common_name ∧
      (projectStar c9eph c9star).hip = s.hip :=
  projection_preserves_canonical_fields c9eph [c9star] (projectStar c9eph c9star)
    (show projectStar c9eph c9star ∈ calculate_positions c9eph [c9star] by
      rw [show calculate_positions c9eph [c9star] = [projectStar c9eph c9star] from rfl]
      exact List.mem_singleton.mpr rfl)

/-- The loop body of SkyMap.calculate_positions (lines 49-68) with a
fallible external ephemeris, modelled as an Except-valued oracle: the
body has no exception handler, so a failed query propagates. -/
noncomputable def visLoopBody (eph : ℚ → ℚ → Except Unit (ℚ × ℚ))
    (ids : List ℕ) (acc : List Star) (s : Star) : Except Unit (List Star) := do
  let azalt ← eph s.ra s.dec
  if decide (azalt.2 > 0) || hipRequired s ids then
    pure (acc ++ [{ s with x := (azalt.1 : ℝ) * Real.cos ((azalt.2 : ℚ) : ℝ),
                           y := ((azalt.2 : ℚ) : ℝ) }])
  else
    pure acc

/-- SkyMap.calculate_positions over a fallible ephemeris oracle. -/
noncomputable def calculate_positionsE (eph : ℚ → ℚ → Except Unit (ℚ × ℚ))
    (stars : List Star) : Except Unit (List Star) :=
  stars.foldlM (visLoopBody eph (constellationStarIds stars)) []

lemma visLoop_error (eph : ℚ → ℚ → Except Unit (ℚ × ℚ)) (ids : List ℕ) :
    ∀ (l : List Star) (acc : List Star) (s : Star), s ∈ l →
      eph s.ra s.dec = .error () →
      l.foldlM (visLoopBody eph ids) acc = (.error () : Except Unit (List Star)) := by
  intro l
  induction l with
  | nil => intro acc s hs _; exact absurd hs (List.not_mem_nil s)
  | cons a t IH =>
    intro acc s hs herr
    rw [List.foldlM_cons]
    rcases List.mem_cons.mp hs with rfl | hmem
    · simp only [visLoopBody, herr]
      rfl
    · cases hb : visLoopBody eph ids acc a with
      | error e => cases e; rfl
      | ok acc' =>
        show t.foldlM (visLoopBody eph ids) acc' = _
        exact IH acc' s hmem herr

/-- C7 amended: the visibility pass has no per-star error recovery — if
the ephemeris fails to resolve any star of the catalog, the whole pass
returns that error and no star list is produced. -/
theorem ephemeris_failure_aborts_pass (eph : ℚ → ℚ → Except Unit (ℚ × ℚ))
    (stars : List Star) (s : Star) (hs : s ∈ stars)
    (hf : eph s.ra s.dec = .error ()) :
    calculate_positionsE eph stars = .error () :=
  visLoop_error eph (constellationStarIds stars) stars [] s hs hf

def c7eph : ℚ → ℚ → Except Unit (ℚ × ℚ) := fun ra _ =>
  if ra = 2 then .error () else .ok (3, 1)

def c7good : Star := { id := 71, name := "Good", magnitude := 1, ra := 1, dec := 1 }

def c7bad : Star := { id := 72, name := "Bad", magnitude := 2, ra := 2, dec := 2 }

/-- C7 counterexample: with a two-star catalog in which only the second
star of the two has a failing ephemeris query, the whole pass returns
the error — the failing star is not skipped and the projection of the
first star is lost. -/
theorem ephemeris_failure_counterexample :
    calculate_positionsE c7eph [c7good, c7bad] = .error () := by
  rfl

/-- Witness for C7 amended: a concrete failing query aborts the pass. -/
theorem ephemeris_failure_aborts_witness :
    calculate_positionsE c7eph [c7bad] = .error () :=
  ephemeris_failure_aborts_pass c7eph [c7bad] c7bad (List.mem_singleton.mpr rfl) rfl

/-- create_disc_template line 39: stars sorted by magnitude ascending
(the Python sorted builtin is stable). -/
def sortedByMag (stars : List Star) : List Star :=
  stars.mergeSort (fun a b => decide (a.magnitude ≤ b.magnitude))

/-- The star-position table of create_disc_template (lines 42-53): for
every star, in sorted order, `star_positions[star.hip] = (x, y)` is
recorded unconditionally — before and independent of the bounds check
performed inside `_draw_star`. -/
noncomputable def starPositions (g : DiscGen) (stars : List Star) :
    Option ℕ → Option (ℝ × ℝ) :=
  (sortedByMag stars).foldl
    (fun t u => Function.update t u.hip (some (discX g u, discY g u)))
    (fun _ => none)

lemma foldl_update_not_mem (g : DiscGen) :
    ∀ (l : List Star) (t0 : Option ℕ → Option (ℝ × ℝ)) (k : Option ℕ),
      (∀ t ∈ l, t.hip ≠ k) →
      l.foldl (fun (t : Option ℕ → Option (ℝ × ℝ)) u =>
        Function.update t u.hip (some (discX g u, discY g u))) t0 k = t0 k := by
  intro l
  induction l with
  | nil => intro t0 k _; rfl
  | cons a l IH =>
    intro t0 k h
    rw [List.foldl_cons, IH _ k (fun t ht => h t (List.mem_cons_of_mem a ht))]
    exact Function.update_noteq (fun he => h a (List.mem_cons_self a l) he.symm) _ _

lemma foldl_update_lookup (g : DiscGen) :
    ∀ (l : List Star) (t0 : Option ℕ → Option (ℝ × ℝ)) (s : Star),
      s ∈ l → (∀ t ∈ l, t.hip = s.hip → t = s) →
      l.foldl (fun (t : Option ℕ → Option (ℝ × ℝ)) u =>
        Function.update t u.hip (some (discX g u, discY g u))) t0 s.hip
        = some (discX g s, discY g s) := by
  intro l
  induction l with
  | nil => intro t0 s hs _; exact absurd hs (List.not_mem_nil s)
  | cons a l IH =>
    intro t0 s hs huniq
    rw [List.foldl_cons]
    by_cases hmem : s ∈ l
    · exact IH _ s hmem (fun t ht => huniq t (List.mem_cons_of_mem a ht))
    · have hsa : s = a := by
        rcases List.mem_cons.mp hs with h | h
        · exact h
        · exact absurd h hmem
      subst hsa
      rw [foldl_update_not_mem g l _ s.hip ?_]
      · exact Function.update_same _ _ _
      · intro t ht he
        exact hmem ((huniq t (List.mem_cons_of_mem s ht) he) ▸ ht)

/-- C8: the hip key of every star is recorded in the position table with
the computed disc position of that star, with no bounds-check condition — so edge
resolution only needs both endpoints recorded, not both markers drawn. -/
theorem star_recorded_regardless_of_bounds (g : DiscGen) (stars : List Star)
    (s : Star) (hs : s ∈ stars) (huniq : ∀ t ∈ stars, t.hip = s.hip → t = s) :
    starPositions g stars s.hip = some (discX g s, discY g s) := by
  unfold starPositions sortedByMag
  apply foldl_update_lookup
  · exact List.mem_mergeSort.mpr hs
  · intro t ht he
    exact huniq t (List.mem_mergeSort.mp ht) he

def c8star : Star :=
  { id := 81, name := "Sirius", magnitude := -1.46, ra := 6.75, dec := -16.7,
    hip := some 32349 }

/-- Witness for C8: the hip of a concrete star is recorded with its computed
disc position. -/
theorem star_recorded_witness :
    starPositions defaultGen [c8star] c8star.hip =
      some (discX defaultGen c8star, discY defaultGen c8star) :=
  star_recorded_regardless_of_bounds defaultGen [c8star] c8star
    (List.mem_singleton.mpr rfl)
    (fun t ht _ => List.mem_singleton.mp ht)

/-- create_disc_template line 40 source set: the first ten stars of the
magnitude-sorted list. -/
def top10 (stars : List Star) : List Star := (sortedByMag stars).take 10

/-- create_disc_template line 40: `set(star.name for star in
sorted_stars[:10])`, modelled as the list of those names (membership is
what the renderer consults). -/
def brightestNames (stars : List Star) : List String :=
  (top10 stars).map Star.name

/-- The `draw_name` argument passed to _draw_star (line 62):
`star.hip if star.name in brightest_stars else None`. -/
def drawNameArg (stars : List Star) (s : Star) : Option ℕ :=
  if s.name ∈ brightestNames stars then s.hip else none

def mkPlain (i : ℕ) (nm : String) (m : ℚ) : Star :=
  { id := i, name := nm, magnitude := m, ra := 0, dec := 0, hip := some i }

def c6dim : Star := mkPlain 11 "Alpha" 100

def c6stars : List Star :=
  [mkPlain 1 "Alpha" 1, mkPlain 2 "B" 2, mkPlain 3 "C" 3, mkPlain 4 "D" 4,
   mkPlain 5 "E" 5, mkPlain 6 "F" 6, mkPlain 7 "G" 7, mkPlain 8 "H" 8,
   mkPlain 9 "I" 9, mkPlain 10 "J" 10, c6dim]

/-- C6 counterexample: an 11-star input where the dimmest star shares its
name with the brightest one. The labeled set is the full 10 lowest
magnitudes, every one strictly brighter than the dim star, and yet the
dim star also gets a non-none draw_name argument — a star outside the 10
lowest has its name drawn. -/
theorem labeled_set_counterexample :
    c6dim ∈ c6stars ∧
    drawNameArg c6stars c6dim = some 11 ∧
    (top10 c6stars).length = 10 ∧
    (top10 c6stars).all (fun t => decide (t.magnitude < c6dim.magnitude)) = true := by
  have hms : sortedByMag c6stars = c6stars := by
    unfold sortedByMag
    exact List.mergeSort_of_sorted (by decide)
  have htop : top10 c6stars = c6stars.take 10 := by unfold top10; rw [hms]
  refine ⟨by simp [c6stars], ?_, ?_, ?_⟩
  · unfold drawNameArg brightestNames
    rw [htop]
    rfl
  · rw [htop]; rfl
  · rw [htop]; rfl

lemma mem_take_of_pair_sublist {α : Type} {l : List α} {s t : α} {n : ℕ}
    (hnd : l.Nodup) (hsub : List.Sublist [s, t] l) (ht : t ∈ l.take n) : s ∈ l.take n := by
  induction l generalizing n with
  | nil => simp at ht
  | cons a l IH =>
    cases n with
    | zero => simp at ht
    | succ m =>
      rw [List.take_succ_cons] at ht ⊢
      cases hsub with
      | cons _ hsub' =>
        have hts : t ∈ l := hsub'.subset (by simp)
        rcases List.mem_cons.mp ht with hta | htm
        · exact absurd (hta ▸ hts) (List.nodup_cons.mp hnd).1
        · exact List.mem_cons_of_mem a
            (IH (List.nodup_cons.mp hnd).2 hsub' htm)
      | cons₂ _ hsub' =>
        exact List.mem_cons_self _ _

/-- C6 amended: when star names are pairwise distinct, the labeled set is
the first ten stars of the stable magnitude sort — at most ten stars,
each no dimmer than any star outside the set, ties keeping input order —
and the name argument of a star is non-none exactly when the star is in that
set and has a hip id. (Without distinct names the claim fails: see the
counterexample, where a dim star shares the name of a bright star.) -/
theorem labeled_set_top10 (stars : List Star)
    (hnames : (stars.map Star.name).Nodup) :
    (top10 stars).length ≤ 10 ∧
    (∀ s ∈ top10 stars, ∀ t ∈ stars, t ∉ top10 stars →
      s.magnitude ≤ t.magnitude) ∧
    (∀ s t : Star, List.Sublist [s, t] stars → s.magnitude = t.magnitude →
      t ∈ top10 stars → s ∈ top10 stars) ∧
    (∀ s ∈ stars, (drawNameArg stars s ≠ none ↔
      s ∈ top10 stars ∧ s.hip ≠ none)) := by
  have htrans : ∀ a b c : Star, decide (a.magnitude ≤ b.magnitude) →
      decide (b.magnitude ≤ c.magnitude) → decide (a.magnitude ≤ c.magnitude) := by
    intro a b c hab hbc
    simp only [decide_eq_true_eq] at hab hbc ⊢
    exact le_trans hab hbc
  have htotal : ∀ a b : Star, decide (a.magnitude ≤ b.magnitude) ||
      decide (b.magnitude ≤ a.magnitude) := by
    intro a b
    simpa [Bool.or_eq_true, decide_eq_true_eq] using le_total a.magnitude b.magnitude
  refine ⟨?_, ?_, ?_, ?_⟩
  · exact List.length_take_le 10 (sortedByMag stars)
  · intro s hs t htmem htnot
    have hsorted := List.sorted_mergeSort htrans htotal stars
    have htsorted : t ∈ sortedByMag stars := by
      unfold sortedByMag; exact List.mem_mergeSort.mpr htmem
    have htdrop : t ∈ (sortedByMag stars).drop 10 := by
      rcases (List.mem_append.mp (by
        rwa [List.take_append_drop 10 (sortedByMag stars)])) with h | h
      · exact absurd h htnot
      · exact h
    have hpw : ((sortedByMag stars).take 10 ++ (sortedByMag stars).drop 10).Pairwise
        (fun a b : Star => decide (a.magnitude ≤ b.magnitude) = true) := by
      rw [List.take_append_drop 10 (sortedByMag stars)]
      exact hsorted
    have := (List.pairwise_append.mp hpw).2.2 s hs t htdrop
    simpa [decide_eq_true_eq] using this
  · intro s t hsub hmag hmem
    have hndstars : stars.Nodup := List.Nodup.of_map Star.name hnames
    have hnd : (sortedByMag stars).Nodup :=
      ((List.mergeSort_perm stars _).nodup_iff).mpr hndstars
    have hpair : List.Sublist [s, t] (sortedByMag stars) := by
      unfold sortedByMag
      exact List.pair_sublist_mergeSort htrans htotal
        (by simp [decide_eq_true_eq, hmag.le]) hsub
    exact mem_take_of_pair_sublist hnd hpair hmem
  · intro s hsmem
    constructor
    · intro hne
      unfold drawNameArg at hne
      by_cases hcond : s.name ∈ brightestNames stars
      · rw [if_pos hcond] at hne
        refine ⟨?_, hne⟩
        obtain ⟨u, humem, huname⟩ := List.mem_map.mp hcond
        have hustars : u ∈ stars := by
          have : u ∈ sortedByMag stars := List.take_subset 10 _ humem
          unfold sortedByMag at this
          exact List.mem_mergeSort.mp this
        have : u = s := List.inj_on_of_nodup_map hnames hustars hsmem huname
        exact this ▸ humem
      · rw [if_neg hcond] at hne
        exact absurd rfl hne
    · rintro ⟨hmem10, hhip⟩
      unfold drawNameArg
      have hcond : s.name ∈ brightestNames stars := by
        unfold brightestNames
        exact List.mem_map_of_mem Star.name hmem10
      rw [if_pos hcond]
      exact hhip

def c6w1 : Star := mkPlain 21 "Castor" 1

def c6w2 : Star := mkPlain 22 "Pollux" 2

/-- Witness for C6 amended: on a concrete distinct-name input the labeled
set is small and the name-drawing test agrees with top-ten membership. -/
theorem labeled_set_top10_witness :
    (top10 [c6w1, c6w2]).length ≤ 10 ∧
    (drawNameArg [c6w1, c6w2] c6w1 ≠ none ↔
      c6w1 ∈ top10 [c6w1, c6w2] ∧ c6w1.hip ≠ none) :=
  ⟨(labeled_set_top10 [c6w1, c6w2] (by decide)).1,
   (labeled_set_top10 [c6w1, c6w2] (by decide)).2.2.2 c6w1 (List.mem_cons_self _ _)⟩

/-- A parsed row of the HYG catalog source, with the fields
_load_catalog consumes (id, proper, hip, hd, mag, ra, dec, con); a hip
of `none` models an empty hip column. -/
structure CatalogRow where
  id : ℕ
  proper : String
  hip : Option ℕ
  hd : String
  mag : ℚ
  ra : ℚ
  dec : ℚ
  con : String

/-- StarCatalog.bright_star_threshold (Star.py line 29). -/
def bright_star_threshold : ℚ := 4.5

/-- Star construction in _load_catalog (Star.py lines 53-66), including
the name fallback `proper or "HIP ..." if hip else "HD ..."`. -/
def rowToStar (r : CatalogRow) : Star :=
  { id := r.id
    name := match r.hip with
      | some h => if r.proper ≠ "" then r.proper else "HIP " ++ toString h
      | none => "HD " ++ r.hd
    magnitude := r.mag
    ra := r.ra
    dec := r.dec
    constellation := some r.con
    common_name := if r.proper ≠ "" then some r.proper else none
    hip := r.hip }

/-- Python dict assignment `self.stars[star.id] = star`: replace the
entry in place if the key exists, else append. -/
def dictInsert (stars : List Star) (s : Star) : List Star :=
  if stars.any (fun t => t.id == s.id) then
    stars.map (fun t => if t.id == s.id then s else t)
  else stars ++ [s]

/-- StarCatalog._load_catalog (Star.py lines 42-69): only rows whose
magnitude is at most the bright-star threshold are inserted. -/
def load_catalog (rows : List CatalogRow) : List Star :=
  rows.foldl
    (fun d r => if r.mag ≤ bright_star_threshold then dictInsert d (rowToStar r) else d)
    []

/-- StarCatalog.get_visible_stars (Star.py lines 71-78): filter by
magnitude, defaulting the limit to the bright-star threshold. -/
def get_visible_stars (catalog : List Star) (magnitude_limit : Option ℚ) :
    List Star :=
  let limit := magnitude_limit.getD bright_star_threshold
  catalog.filter (fun s => decide (s.magnitude ≤ limit))

lemma mem_dictInsert {stars : List Star} {s u : Star}
    (hu : u ∈ dictInsert stars s) : u = s ∨ u ∈ stars := by
  unfold dictInsert at hu
  by_cases hany : stars.any (fun t => t.id == s.id)
  · rw [if_pos hany] at hu
    obtain ⟨t, htmem, hteq⟩ := List.mem_map.mp hu
    by_cases hid : t.id == s.id
    · rw [if_pos hid] at hteq; exact Or.inl hteq.symm
    · rw [if_neg hid] at hteq; exact Or.inr (hteq ▸ htmem)
  · rw [if_neg hany] at hu
    rcases List.mem_append.mp hu with h | h
    · exact Or.inr h
    · exact Or.inl (List.mem_singleton.mp h)

lemma load_catalog_mag_le :
    ∀ (rows : List CatalogRow) (acc : List Star),
      (∀ s ∈ acc, s.magnitude ≤ bright_star_threshold) →
      ∀ s ∈ rows.foldl
        (fun d r => if r.mag ≤ bright_star_threshold then dictInsert d (rowToStar r) else d)
        acc, s.magnitude ≤ bright_star_threshold := by
  intro rows
  induction rows with
  | nil => intro acc hacc s hs; exact hacc s hs
  | cons r rows IH =>
    intro acc hacc s hs
    rw [List.foldl_cons] at hs
    by_cases hm : r.mag ≤ bright_star_threshold
    · rw [if_pos hm] at hs
      refine IH _ ?_ s hs
      intro u hu
      rcases mem_dictInsert hu with rfl | hmem
      · exact hm
      · exact hacc u hmem
    · rw [if_neg hm] at hs
      exact IH _ hacc s hs

/-- C10: every star the catalog stores after load is at most magnitude
4.5, so any magnitude filter with a limit of at least 4.5 — including
the SkyMap request with limit 10 — returns the whole catalog and agrees
with the filter at 4.5. -/
theorem catalog_bright_threshold_invariant (rows : List CatalogRow) (s : Star)
    (limit : ℚ) (hs : s ∈ load_catalog rows) (hl : bright_star_threshold ≤ limit) :
    s.magnitude ≤ 4.5 ∧
    get_visible_stars (load_catalog rows) (some limit) = load_catalog rows ∧
    get_visible_stars (load_catalog rows) (some limit) =
      get_visible_stars (load_catalog rows) (some bright_star_threshold) := by
  have hall : ∀ u ∈ load_catalog rows, u.magnitude ≤ bright_star_threshold :=
    load_catalog_mag_le rows [] (fun u hu => absurd hu (List.not_mem_nil u))
  have hfull : ∀ limit2 : ℚ, bright_star_threshold ≤ limit2 →
      get_visible_stars (load_catalog rows) (some limit2) = load_catalog rows := by
    intro limit2 hl2
    unfold get_visible_stars
    refine List.filter_eq_self.mpr ?_
    intro u hu
    simpa [decide_eq_true_eq] using le_trans (hall u hu) hl2
  refine ⟨hall s hs, hfull limit hl, ?_⟩
  rw [hfull limit hl, hfull bright_star_threshold le_rfl]

def c10row : CatalogRow :=
  { id := 101, proper := "Altair", hip := some 97649, hd := "187642",
    mag := 0.76, ra := 19.8, dec := 8.8, con := "Aql" }

/-- Witness for C10: a concrete one-row catalog, queried with the
SkyMap limit of 10. -/
theorem catalog_bright_threshold_witness :
    (rowToStar c10row).magnitude ≤ 4.5 ∧
    get_visible_stars (load_catalog [c10row]) (some 10) = load_catalog [c10row] ∧
    get_visible_stars (load_catalog [c10row]) (some 10) =
      get_visible_stars (load_catalog [c10row]) (some bright_star_threshold) :=
  catalog_bright_threshold_invariant [c10row] (rowToStar c10row) 10
    (by
      unfold load_catalog
      rw [List.foldl_cons, if_pos (by norm_num [c10row, bright_star_threshold]),
          List.foldl_nil]
      unfold dictInsert
      rw [if_neg (by simp)]
      simp)
    (by norm_num [bright_star_threshold])

end CaelumNoctis
